import Mathlib

set_option maxHeartbeats 1000000

/-!
Shallow embedding of the markdown conversion core of the
google-docs-markdown repository, together with proofs checking the
specification's claims against it.

The embedded code:
* `src/google_docs_markdown/downloader.py` — `GoogleDocMarkdown.download`
  (document tree → markup serialization) and `GoogleDocMarkdown.upload`
  (markup → edit-operation list with a running cursor offset);
* `src/google_docs_markdown/api_client.py` —
  `GoogleDocsAPIClient.extract_document_id` and
  `GoogleDocsAPIClient._execute_with_retry`.

Strings are modelled as `List Char` (one entry per Unicode code point,
matching Python's `len`/indexing on `str`). Network/API calls are out of
scope; `upload`'s body-end offset and the retry loop's API call are
explicit parameters.
-/

/-- ASCII whitespace recognised by Python's default `str.strip` /
`rstrip` / `lstrip`: space, tab, newline, vertical tab, form feed,
carriage return. (Python also strips some further Unicode whitespace;
only ASCII is relevant to this code base.) -/
def pyIsSpace (c : Char) : Bool :=
  c = ' ' || c = '\t' || c = '\n' || c = '\x0b' || c = '\x0c' || c = '\r'

/-- Python `s.lstrip()`: drop leading whitespace. -/
def pyLstrip (l : List Char) : List Char :=
  l.dropWhile pyIsSpace

/-- Python `s.rstrip()`: drop trailing whitespace. -/
def pyRstrip (l : List Char) : List Char :=
  (l.reverse.dropWhile pyIsSpace).reverse

/-- Python `s.strip()`: drop leading and trailing whitespace. -/
def pyStrip (l : List Char) : List Char :=
  pyRstrip (pyLstrip l)

/-- Python `s.split("\n")`: even the empty string yields one (empty)
field, and every `'\n'` separates two fields. -/
def splitNl : List Char → List (List Char)
  | [] => [[]]
  | c :: rest =>
    if c = '\n' then [] :: splitNl rest
    else
      match splitNl rest with
      | [] => [[c]]
      | l :: ls => (c :: l) :: ls

/-- Text run of a paragraph: raw content plus the three independent
style flags read by `download` (`textStyle.bold` / `italic` /
`underline`). -/
structure TextRun where
  content : List Char
  bold : Bool
  italic : Bool
  underline : Bool
deriving DecidableEq

/-- Paragraph: `paragraphStyle.namedStyleType` plus the ordered text
runs of its elements. -/
structure Paragraph where
  style : String
  runs : List TextRun
deriving DecidableEq

/-- Content element of the document body: a paragraph, or a table whose
rows are lists of cells, each cell owning its own content elements
(the recursive shape traversed by `download`). -/
inductive Element where
  | paragraph (style : String) (runs : List TextRun)
  | table (rows : List (List (List Element)))

/-- Inline wrapping of one text run, translated from `process_element`
in `download`: bold first (doubled asterisk), then italic (single
asterisk), then underline (explicit inline tag), each applied only when
its flag is set. -/
def wrapRun (r : TextRun) : List Char :=
  let t0 := r.content
  let t1 := if r.bold then ("**").data ++ t0 ++ ("**").data else t0
  let t2 := if r.italic then ("*").data ++ t1 ++ ("*").data else t1
  if r.underline then ("<u>").data ++ t2 ++ ("</u>").data else t2

/-- Concatenation of a paragraph's style-wrapped runs
(`"".join(para_text)` in `download`). -/
def assembleParagraph (p : Paragraph) : List Char :=
  (p.runs.map wrapRun).flatten

/-- Serialization of one paragraph, translated from the paragraph branch
of `process_element`: wrap and join the runs, strip the result, emit
nothing when the stripped text is empty, otherwise prefix the heading
marker selected by the named style and terminate with a newline. -/
def serializeParagraph (p : Paragraph) : List Char :=
  let text := pyStrip (assembleParagraph p)
  if text = [] then []
  else if p.style = "HEADING_1" then ("# ").data ++ text ++ [('\n')]
  else if p.style = "HEADING_2" then ("## ").data ++ text ++ [('\n')]
  else if p.style = "HEADING_3" then ("### ").data ++ text ++ [('\n')]
  else if p.style = "HEADING_4" then ("#### ").data ++ text ++ [('\n')]
  else if p.style = "HEADING_5" then ("##### ").data ++ text ++ [('\n')]
  else if p.style = "HEADING_6" then ("###### ").data ++ text ++ [('\n')]
  else text ++ [('\n')]

/-- Raw run texts contributed by one element of a table cell, translated
from `_extract_text_from_element`: the contents of a paragraph's runs
(unstyled), nothing for any other element kind. -/
def runTexts : Element → List (List Char)
  | .paragraph _ runs => runs.map (fun r => r.content)
  | .table _ => []

/-- Text of one table cell: run texts of the cell's elements, joined by
single spaces and stripped (`" ".join(cell_text).strip()`). -/
def cellText (cell : List Element) : List Char :=
  pyStrip (List.intercalate [(' ')] (cell.map runTexts).flatten)

/-- Texts of the cells of one table row. -/
def rowCellsOf (row : List (List Element)) : List (List Char) :=
  row.map cellText

/-- Pipe-delimited table line: `"| " + " | ".join(cells) + " |\n"`. -/
def pipeRow (cells : List (List Char)) : List Char :=
  ("| ").data ++ List.intercalate ((" | ").data) cells ++ (" |\n").data

/-- Serialization of one table, translated from the table branch of
`process_element`: nothing for zero rows; otherwise row 0 is the header
and, when it has at least one cell, the header line, a separator line of
`---` cells of the same width, the remaining rows (those with at least
one cell), and a trailing blank line are emitted. -/
def serializeTable (rows : List (List (List Element))) : List Char :=
  match rows with
  | [] => []
  | headerRow :: dataRows =>
    let headerCells := rowCellsOf headerRow
    if headerCells = [] then []
    else
      pipeRow headerCells
        ++ pipeRow (headerCells.map (fun _ => ("---").data))
        ++ (dataRows.map (fun row =>
              let rowCells := rowCellsOf row
              if rowCells = [] then [] else pipeRow rowCells)).flatten
        ++ [('\n')]

/-- Serialization of one content element (`process_element`). -/
def serializeElement : Element → List Char
  | .paragraph style runs => serializeParagraph ⟨style, runs⟩
  | .table rows => serializeTable rows

/-- Serialization of the whole document body: concatenation of the
serializations of its elements, in order (`"".join(markdown_parts)`). -/
def serializeBody (els : List Element) : List Char :=
  (els.map serializeElement).flatten

/-- Edit operation emitted by `upload`, one of the three request shapes
sent to the batch-update endpoint. -/
inductive Request where
  | insertText (index : Nat) (text : List Char)
  | deleteContentRange (startIndex endIndex : Nat)
  | updateParagraphStyle (startIndex endIndex : Nat) (namedStyleType : String)
deriving DecidableEq

/-- Processing of one markup line by `upload`: right-strip it, then
classify it as blank, heading, table row, or plain paragraph, returning
the emitted requests together with the new cursor. A heading line's text
is `line.lstrip("# ").strip()` (all leading `'#'` and `' '` characters
removed, then stripped) and its level is the count of leading `'#'`
characters, clamped to 6 in the style name. -/
def buildLine (cursor : Nat) (rawLine : List Char) : List Request × Nat :=
  let line := pyRstrip rawLine
  if line = [] then
    ([Request.insertText cursor [('\n')]], cursor + 1)
  else if line.head? = some '#' then
    let level := line.length - (line.dropWhile (fun c => c = '#')).length
    let text := pyStrip (line.dropWhile (fun c => c = '#' || c = ' '))
    let style := "HEADING_" ++ Nat.repr (min level 6)
    ([Request.insertText cursor (text ++ [('\n')]),
      Request.updateParagraphStyle cursor (cursor + text.length) style],
     cursor + text.length + 1)
  else if line.head? = some '|' && line.tail.contains '|' then
    ([Request.insertText cursor (line ++ [('\n')])], cursor + line.length + 1)
  else
    ([Request.insertText cursor (line ++ [('\n')])], cursor + line.length + 1)

/-- The line loop of `upload`: thread the cursor through the lines,
returning all emitted requests and the final cursor. -/
def buildLinesC : Nat → List (List Char) → List Request × Nat
  | cursor, [] => ([], cursor)
  | cursor, l :: ls =>
    let step := buildLine cursor l
    let rest := buildLinesC step.2 ls
    (step.1 ++ rest.1, rest.2)

/-- Request list produced by `upload` for a given existing body end
offset and markup text: a `deleteContentRange` of `[1, endIndex - 1)`
when the body is non-empty (`end_index > 1`), followed by the requests
of the line loop started at cursor 1 on `markdown.split("\n")`. -/
def uploadRequests (endIndex : Nat) (markdown : List Char) : List Request :=
  (if 1 < endIndex then [Request.deleteContentRange 1 (endIndex - 1)] else [])
    ++ (buildLinesC 1 (splitNl markdown)).1

/-- Final value of `current_index` after the line loop of `upload`. -/
def finalCursor (markdown : List Char) : Nat :=
  (buildLinesC 1 (splitNl markdown)).2

/-- Location/length pairs of the `insertText` requests of a request
list, in order. -/
def insertsOf : List Request → List (Nat × Nat)
  | [] => []
  | Request.insertText i t :: rest => (i, t.length) :: insertsOf rest
  | _ :: rest => insertsOf rest

/-- Total number of characters inserted by the `insertText` requests of
a request list. -/
def insertedLen (ops : List Request) : Nat :=
  ((insertsOf ops).map (fun p => p.2)).sum

/-- The location/length pairs start exactly at `c` and are consecutive:
each insertion begins where the previous one ended. -/
def consecFrom : Nat → List (Nat × Nat) → Prop
  | _, [] => True
  | c, p :: rest => p.1 = c ∧ consecFrom (c + p.2) rest

/-- Interpretation of a request list as the (style, text) paragraph
sequence of the document it builds: the builder's `insertText` requests
each append one newline-terminated line at the running end of the body,
and an `updateParagraphStyle` emitted immediately after an insertion
names that line's paragraph style (the remote service applies the batch
in order). The terminating newline is removed to recover the paragraph
text; a line with no following style request is a NORMAL_TEXT
paragraph. -/
def opsParagraphs : List Request → List (String × List Char)
  | [] => []
  | Request.insertText _ t :: Request.updateParagraphStyle _ _ st :: rest =>
    (st, t.dropLast) :: opsParagraphs rest
  | Request.insertText _ t :: rest =>
    ("NORMAL_TEXT", t.dropLast) :: opsParagraphs rest
  | _ :: rest => opsParagraphs rest

/-- Plain text of a paragraph: concatenation of its runs' raw contents,
ignoring styles. -/
def rawText (p : Paragraph) : List Char :=
  (p.runs.map (fun r => r.content)).flatten

/-- Run with no style flag set. -/
def plainRun (r : TextRun) : Prop :=
  r.bold = false ∧ r.italic = false ∧ r.underline = false

/-- Named paragraph styles handled by the serializer. -/
def allowedStyles : List String :=
  ["NORMAL_TEXT", "HEADING_1", "HEADING_2", "HEADING_3",
   "HEADING_4", "HEADING_5", "HEADING_6"]

/-- Heading marker that `serializeParagraph` puts in front of the
stripped paragraph text for each named style (empty for `NORMAL_TEXT`
and for unrecognized styles). -/
def headingMark (style : String) : List Char :=
  if style = "HEADING_1" then ("# ").data
  else if style = "HEADING_2" then ("## ").data
  else if style = "HEADING_3" then ("### ").data
  else if style = "HEADING_4" then ("#### ").data
  else if style = "HEADING_5" then ("##### ").data
  else if style = "HEADING_6" then ("###### ").data
  else []

/-- Markup line that a paragraph serializes to (without the trailing
newline). -/
def lineOf (p : Paragraph) : List Char :=
  headingMark p.style ++ rawText p

/-- Paragraph on the supported round-trip subset: an allowed named
style, unstyled runs, and a non-empty plain text that carries no
leading/trailing whitespace, no embedded newline, and no leading `'#'`
character. -/
def goodPara (p : Paragraph) : Prop :=
  p.style ∈ allowedStyles
    ∧ (∀ r ∈ p.runs, plainRun r)
    ∧ rawText p ≠ []
    ∧ pyStrip (rawText p) = rawText p
    ∧ ('\n') ∉ rawText p
    ∧ (rawText p).head? ≠ some '#'

/-- Character allowed in a document id by the extraction patterns
(`[a-zA-Z0-9-_]`). -/
def isIdChar (c : Char) : Bool :=
  c.isAlphanum || c = '-' || c = '_'

/-- Python `re.search` for a fixed literal followed by a captured
non-empty run of id characters (the shape of both extraction patterns):
scan left to right and, at the first position where the literal matches
and at least one id character follows it, capture the maximal run. -/
def findCapture (lit : List Char) : List Char → Option (List Char)
  | [] => none
  | c :: rest =>
    if lit.isPrefixOf (c :: rest) then
      let run := ((c :: rest).drop lit.length).takeWhile isIdChar
      if run = [] then findCapture lit rest else some run
    else findCapture lit rest

/-- Python `re.match(r"^[a-zA-Z0-9-_]{10,}$", s)` as a boolean: at least
ten id characters followed by the end of the string. In Python, `$`
(without MULTILINE) also matches just before a newline that ends the
string, so a run of ten or more id characters followed by exactly one
final newline is accepted as well. -/
def bareMatch (l : List Char) : Bool :=
  let run := l.takeWhile isIdChar
  decide (10 ≤ run.length)
    && ((l.drop run.length).isEmpty || l.drop run.length == [('\n')])

/-- Translation of `GoogleDocsAPIClient.extract_document_id`: try the
`/document/d/{id}` pattern, then the `id={id}` pattern, then accept the
input itself as a bare id when it has no slash and no dot and matches
the bare-id pattern; otherwise fail with a `ValueError`. -/
def extract_document_id (urlOrId : String) : Except String String :=
  match findCapture (("/document/d/").data) urlOrId.data with
  | some run => Except.ok (String.mk run)
  | none =>
    match findCapture (("id=").data) urlOrId.data with
    | some run => Except.ok (String.mk run)
    | none =>
      if !(urlOrId.data.contains '/') && !(urlOrId.data.contains '.')
          && bareMatch urlOrId.data then
        Except.ok urlOrId
      else
        Except.error ("Could not extract document ID from: " ++ urlOrId)

/-- Outcome of one invocation of the API call inside
`_execute_with_retry`: success, an `HttpError` carrying
`e.resp.status` (`none` when `e.resp` is absent), or a non-HTTP
exception. -/
inductive CallResult (α : Type) where
  | ok (a : α)
  | httpError (status : Option Nat)
  | otherError
deriving DecidableEq

/-- Result of `_execute_with_retry`: the returned value, a raised
`HttpError`, a re-raised non-HTTP exception, or the (unreachable)
fall-through `return None` after the loop. -/
inductive RetryResult (α : Type) where
  | ok (a : α)
  | httpError (status : Option Nat)
  | otherError
  | fellThrough
deriving DecidableEq

/-- Retry bound of `_execute_with_retry` (`MAX_RETRIES = 3`). -/
def MAX_RETRIES : Nat := 3

/-- Base backoff delay (`RETRY_DELAY_SECONDS = 1`). -/
def RETRY_DELAY_SECONDS : Nat := 1

/-- Status codes treated as retryable
(`RETRYABLE_ERROR_CODES = [429, 500, 502, 503, 504]`). -/
def RETRYABLE_ERROR_CODES : List Nat := [429, 500, 502, 503, 504]

/-- Python `error_code in RETRYABLE_ERROR_CODES` where `error_code` may
be `None`. -/
def isRetryable : Option Nat → Bool
  | some code => RETRYABLE_ERROR_CODES.contains code
  | none => false

/-- Trace of one run of `_execute_with_retry`: the final outcome, the
number of times the API call was invoked, and the list of backoff
delays slept (in seconds, in order). -/
structure RetryTrace (α : Type) where
  result : RetryResult α
  callsMade : Nat
  sleeps : List Nat
deriving DecidableEq

/-- Loop body of `_execute_with_retry`, translated attempt by attempt:
the fuel is the number of loop iterations remaining, `attempt` the
Python loop variable, and the third argument the `last_exception`
accumulator consulted after the loop. A non-retryable status or the
last attempt re-raises immediately; otherwise the loop sleeps
`RETRY_DELAY_SECONDS * 2 ** attempt` and continues. -/
def retryGo (call : Nat → CallResult α) : Nat → Nat → Option (Option Nat) → RetryTrace α
  | 0, _, lastExc =>
    ⟨match lastExc with
      | some st => RetryResult.httpError st
      | none => RetryResult.fellThrough, 0, []⟩
  | fuel + 1, attempt, _ =>
    match call attempt with
    | CallResult.ok a => ⟨RetryResult.ok a, 1, []⟩
    | CallResult.otherError => ⟨RetryResult.otherError, 1, []⟩
    | CallResult.httpError st =>
      if isRetryable st = false then ⟨RetryResult.httpError st, 1, []⟩
      else if attempt = MAX_RETRIES - 1 then ⟨RetryResult.httpError st, 1, []⟩
      else
        let delay := RETRY_DELAY_SECONDS * 2 ^ attempt
        let t := retryGo call fuel (attempt + 1) (some st)
        ⟨t.result, t.callsMade + 1, delay :: t.sleeps⟩

/-- Translation of `GoogleDocsAPIClient._execute_with_retry`. -/
def execute_with_retry (call : Nat → CallResult α) : RetryTrace α :=
  retryGo call MAX_RETRIES 0 none

/-- Table cell holding one unstyled paragraph with the given text (used
in concrete table scenarios). -/
def sampleCell (s : String) : List Element :=
  [Element.paragraph ("NORMAL_TEXT") [⟨s.data, false, false, false⟩]]

/-! ### Lemmas about the Python string helpers -/

theorem pyRstrip_eq_rdropWhile (l : List Char) :
    pyRstrip l = l.rdropWhile pyIsSpace := rfl

theorem pyRstrip_concat_of_not {c : Char} (u : List Char)
    (h : pyIsSpace c = false) : pyRstrip (u ++ [c]) = u ++ [c] := by
  rw [pyRstrip_eq_rdropWhile]
  exact List.rdropWhile_concat_neg _ _ _ (by simp [h])

theorem pyRstrip_nil : pyRstrip [] = [] := rfl

theorem pyRstrip_all_space {l : List Char} (h : ∀ c ∈ l, pyIsSpace c = true) :
    pyRstrip l = [] := by
  rw [pyRstrip_eq_rdropWhile]
  exact List.rdropWhile_eq_nil_iff.mpr (fun x hx => by simp [h x hx])

theorem pyLstrip_length_le (l : List Char) : (pyLstrip l).length ≤ l.length :=
  (List.dropWhile_suffix _).sublist.length_le

theorem pyRstrip_length_le (l : List Char) : (pyRstrip l).length ≤ l.length :=
  (List.rdropWhile_prefix _ _).sublist.length_le

theorem pyLstrip_eq_self_of_strip {l : List Char} (h : pyStrip l = l) :
    pyLstrip l = l := by
  have h1 : (pyStrip l).length ≤ (pyLstrip l).length := pyRstrip_length_le _
  rw [h] at h1
  exact (List.dropWhile_suffix _).sublist.eq_of_length
    (Nat.le_antisymm (pyLstrip_length_le l) h1)

theorem pyRstrip_eq_self_of_strip {l : List Char} (h : pyStrip l = l) :
    pyRstrip l = l := by
  have h2 := pyLstrip_eq_self_of_strip h
  unfold pyStrip at h
  rwa [h2] at h

theorem strip_head_not_space {c : Char} {t : List Char}
    (h : pyStrip (c :: t) = c :: t) : pyIsSpace c = false := by
  have h2 := pyLstrip_eq_self_of_strip h
  by_contra hc
  rw [Bool.not_eq_false] at hc
  unfold pyLstrip at h2
  rw [List.dropWhile_cons, if_pos (by simp [hc])] at h2
  have := congrArg List.length h2
  have hle : (t.dropWhile pyIsSpace).length ≤ t.length :=
    (List.dropWhile_suffix _).sublist.length_le
  simp at this
  omega

theorem strip_last_not_space {u : List Char} {c : Char}
    (h : pyStrip (u ++ [c]) = u ++ [c]) : pyIsSpace c = false := by
  have h2 := pyRstrip_eq_self_of_strip h
  rw [pyRstrip_eq_rdropWhile] at h2
  have := List.rdropWhile_eq_self_iff.mp h2 (by simp)
  rwa [List.getLast_append, Bool.not_eq_true] at this

theorem pyStrip_idem_rstrip (l : List Char) : pyRstrip (pyStrip l) = pyStrip l := by
  unfold pyStrip
  rw [pyRstrip_eq_rdropWhile, pyRstrip_eq_rdropWhile]
  exact List.rdropWhile_idempotent _ _

theorem pyRstrip_idem (l : List Char) : pyRstrip (pyRstrip l) = pyRstrip l := by
  rw [pyRstrip_eq_rdropWhile, pyRstrip_eq_rdropWhile]
  exact List.rdropWhile_idempotent _ _

theorem pyStrip_all_space {l : List Char} (h : ∀ c ∈ l, pyIsSpace c = true) :
    pyStrip l = [] := by
  unfold pyStrip pyLstrip
  rw [List.dropWhile_eq_nil_iff.mpr (fun x hx => by simp [h x hx])]
  rfl

theorem splitNl_line {l : List Char} (rest : List Char) (h : ('\n') ∉ l) :
    splitNl (l ++ ('\n') :: rest) = l :: splitNl rest := by
  induction l with
  | nil => simp [splitNl]
  | cons c l ih =>
    have hc : ¬(c = '\n') := fun e => h (e ▸ List.mem_cons_self c l)
    have ih2 := ih (fun hm => h (List.mem_cons_of_mem c hm))
    simp only [List.cons_append, splitNl, if_neg hc, List.append_eq, ih2]

/-! ### Lemmas about the edit-operation builder -/

theorem buildLine_blank (cursor : Nat) {raw : List Char}
    (h : ∀ c ∈ raw, pyIsSpace c = true) :
    buildLine cursor raw = ([Request.insertText cursor [('\n')]], cursor + 1) := by
  unfold buildLine
  rw [pyRstrip_all_space h]
  simp

theorem buildLine_cases (cursor : Nat) (raw : List Char) :
    (∃ t, pyRstrip t = t ∧
        (buildLine cursor raw).1 = [Request.insertText cursor (t ++ [('\n')])] ∧
        (buildLine cursor raw).2 = cursor + t.length + 1)
    ∨ (∃ t st, pyRstrip t = t ∧
        (buildLine cursor raw).1 =
          [Request.insertText cursor (t ++ [('\n')]),
           Request.updateParagraphStyle cursor (cursor + t.length) st] ∧
        (buildLine cursor raw).2 = cursor + t.length + 1) := by
  unfold buildLine
  simp only []
  split_ifs with h1 h2 h3
  · left; exact ⟨[], rfl, rfl, rfl⟩
  · right; exact ⟨_, _, pyStrip_idem_rstrip _, rfl, rfl⟩
  · left; exact ⟨pyRstrip raw, pyRstrip_idem raw, rfl, rfl⟩
  · left; exact ⟨pyRstrip raw, pyRstrip_idem raw, rfl, rfl⟩

theorem insertsOf_cons_insert (i : Nat) (t : List Char) (r : List Request) :
    insertsOf (Request.insertText i t :: r) = (i, t.length) :: insertsOf r := rfl

theorem insertsOf_cons_upd (a b : Nat) (st : String) (r : List Request) :
    insertsOf (Request.updateParagraphStyle a b st :: r) = insertsOf r := rfl

theorem insertsOf_cons_del (a b : Nat) (r : List Request) :
    insertsOf (Request.deleteContentRange a b :: r) = insertsOf r := rfl

theorem insertsOf_append (l₁ l₂ : List Request) :
    insertsOf (l₁ ++ l₂) = insertsOf l₁ ++ insertsOf l₂ := by
  induction l₁ with
  | nil => rfl
  | cons r l ih => cases r <;> simp [insertsOf, ih]

theorem insertedLen_nil : insertedLen [] = 0 := rfl

theorem insertedLen_cons_insert (i : Nat) (t : List Char) (r : List Request) :
    insertedLen (Request.insertText i t :: r) = t.length + insertedLen r := by
  simp [insertedLen, insertsOf_cons_insert]

theorem insertedLen_cons_upd (a b : Nat) (st : String) (r : List Request) :
    insertedLen (Request.updateParagraphStyle a b st :: r) = insertedLen r := by
  simp [insertedLen, insertsOf_cons_upd]

theorem insertedLen_cons_del (a b : Nat) (r : List Request) :
    insertedLen (Request.deleteContentRange a b :: r) = insertedLen r := by
  simp [insertedLen, insertsOf_cons_del]

theorem insertedLen_append (l₁ l₂ : List Request) :
    insertedLen (l₁ ++ l₂) = insertedLen l₁ + insertedLen l₂ := by
  unfold insertedLen
  rw [insertsOf_append, List.map_append, List.sum_append]

theorem consecFrom_mem {l : List (Nat × Nat)} : ∀ {c : Nat},
    consecFrom c l → ∀ x ∈ l, c ≤ x.1 := by
  induction l with
  | nil => intro c _ x hx; cases hx
  | cons p l ih =>
    intro c h x hx
    obtain ⟨h1, h2⟩ := h
    rcases List.mem_cons.mp hx with hx | hx
    · subst hx; omega
    · have := ih h2 x hx; omega

theorem consecFrom_pairwise {l : List (Nat × Nat)} : ∀ {c : Nat},
    consecFrom c l → l.Pairwise (fun a b => a.1 + a.2 ≤ b.1) := by
  induction l with
  | nil => intro c _; exact List.Pairwise.nil
  | cons p l ih =>
    intro c h
    obtain ⟨h1, h2⟩ := h
    refine List.Pairwise.cons (fun b hb => ?_) (ih h2)
    have := consecFrom_mem h2 b hb
    omega

theorem buildLinesC_cons (c : Nat) (l : List Char) (ls : List (List Char)) :
    buildLinesC c (l :: ls)
      = ((buildLine c l).1 ++ (buildLinesC (buildLine c l).2 ls).1,
         (buildLinesC (buildLine c l).2 ls).2) := rfl

theorem buildLinesC_core (ls : List (List Char)) : ∀ c : Nat,
    (buildLinesC c ls).2 = c + insertedLen (buildLinesC c ls).1
    ∧ consecFrom c (insertsOf (buildLinesC c ls).1)
    ∧ (∀ a b, Request.deleteContentRange a b ∉ (buildLinesC c ls).1)
    ∧ (∀ i t, Request.insertText i t ∈ (buildLinesC c ls).1 →
        ∃ u, t = u ++ [('\n')] ∧ pyRstrip u = u)
    ∧ (∀ pre s e st post,
        (buildLinesC c ls).1 = pre ++ Request.updateParagraphStyle s e st :: post →
        c ≤ s ∧ s ≤ e ∧ e ≤ c + insertedLen pre) := by
  induction ls with
  | nil =>
    intro c
    refine ⟨rfl, trivial, fun a b h => List.not_mem_nil _ h,
      fun i t h => absurd h (List.not_mem_nil _), ?_⟩
    intro pre s e st post h
    have h2 : ([] : List Request) = pre ++ Request.updateParagraphStyle s e st :: post := h
    have h3 := congrArg List.length h2
    simp only [List.length_nil, List.length_append, List.length_cons] at h3
    omega
  | cons l ls ih =>
    intro c
    rw [buildLinesC_cons]
    rcases buildLine_cases c l with ⟨t, hrs, hops, hcur⟩ | ⟨t, st0, hrs, hops, hcur⟩
    all_goals obtain ⟨ih1, ih2, ih3, ih4, ih5⟩ := ih (c + t.length + 1)
    all_goals rw [hops, hcur]
    · -- single-insert block
      refine ⟨?_, ?_, ?_, ?_, ?_⟩
      · rw [List.cons_append, List.nil_append, insertedLen_cons_insert, ih1]
        simp only [List.length_append, List.length_singleton]
        omega
      · rw [List.cons_append, List.nil_append, insertsOf_cons_insert]
        refine ⟨rfl, ?_⟩
        have hlen : c + (t ++ [('\n')]).length = c + t.length + 1 := by
          simp only [List.length_append, List.length_singleton]; omega
        rw [hlen]
        exact ih2
      · intro a b hmem
        rw [List.cons_append, List.nil_append] at hmem
        rcases List.mem_cons.mp hmem with h | h
        · exact Request.noConfusion h
        · exact ih3 a b h
      · intro i u hmem
        rw [List.cons_append, List.nil_append] at hmem
        rcases List.mem_cons.mp hmem with h | h
        · obtain ⟨_, h2⟩ := Request.insertText.inj h
          exact ⟨t, h2, hrs⟩
        · exact ih4 i u h
      · intro pre s e st post hdec
        rw [List.cons_append, List.nil_append] at hdec
        cases pre with
        | nil =>
          rw [List.nil_append] at hdec
          exact Request.noConfusion (List.head_eq_of_cons_eq hdec)
        | cons q pre2 =>
          rw [List.cons_append] at hdec
          have hq := List.head_eq_of_cons_eq hdec
          have htail := List.tail_eq_of_cons_eq hdec
          obtain ⟨g1, g2, g3⟩ := ih5 pre2 s e st post htail
          subst hq
          rw [insertedLen_cons_insert]
          simp only [List.length_append, List.length_singleton]
          omega
    · -- insert followed by updateParagraphStyle
      refine ⟨?_, ?_, ?_, ?_, ?_⟩
      · rw [List.cons_append, List.cons_append, List.nil_append,
          insertedLen_cons_insert, insertedLen_cons_upd, ih1]
        simp only [List.length_append, List.length_singleton]
        omega
      · rw [List.cons_append, List.cons_append, List.nil_append,
          insertsOf_cons_insert, insertsOf_cons_upd]
        refine ⟨rfl, ?_⟩
        have hlen : c + (t ++ [('\n')]).length = c + t.length + 1 := by
          simp only [List.length_append, List.length_singleton]; omega
        rw [hlen]
        exact ih2
      · intro a b hmem
        rw [List.cons_append, List.cons_append, List.nil_append] at hmem
        rcases List.mem_cons.mp hmem with h | h
        · exact Request.noConfusion h
        rcases List.mem_cons.mp h with h | h
        · exact Request.noConfusion h
        · exact ih3 a b h
      · intro i u hmem
        rw [List.cons_append, List.cons_append, List.nil_append] at hmem
        rcases List.mem_cons.mp hmem with h | h
        · obtain ⟨_, h2⟩ := Request.insertText.inj h
          exact ⟨t, h2, hrs⟩
        rcases List.mem_cons.mp h with h | h
        · exact Request.noConfusion h
        · exact ih4 i u h
      · intro pre s e st post hdec
        rw [List.cons_append, List.cons_append, List.nil_append] at hdec
        cases pre with
        | nil =>
          rw [List.nil_append] at hdec
          exact Request.noConfusion (List.head_eq_of_cons_eq hdec)
        | cons q pre2 =>
          rw [List.cons_append] at hdec
          have hq := List.head_eq_of_cons_eq hdec
          have htail := List.tail_eq_of_cons_eq hdec
          subst hq
          cases pre2 with
          | nil =>
            rw [List.nil_append] at htail
            have hq2 := List.head_eq_of_cons_eq htail
            obtain ⟨e1, e2, e3⟩ := Request.updateParagraphStyle.inj hq2.symm
            rw [insertedLen_cons_insert, insertedLen_nil]
            simp only [List.length_append, List.length_singleton]
            omega
          | cons q2 pre3 =>
            rw [List.cons_append] at htail
            have hq2 := List.head_eq_of_cons_eq htail
            have htail2 := List.tail_eq_of_cons_eq htail
            subst hq2
            obtain ⟨g1, g2, g3⟩ := ih5 pre3 s e st post htail2
            rw [insertedLen_cons_insert, insertedLen_cons_upd]
            simp only [List.length_append, List.length_singleton]
            omega

theorem buildLinesC_head (ls : List (List Char)) (c : Nat) :
    (buildLinesC c ls).1 = []
    ∨ ∃ i t r, (buildLinesC c ls).1 = Request.insertText i t :: r := by
  cases ls with
  | nil => left; rfl
  | cons l ls =>
    right
    rw [buildLinesC_cons]
    rcases buildLine_cases c l with ⟨t, _, hops, _⟩ | ⟨t, st0, _, hops, _⟩ <;>
      rw [hops]
    · exact ⟨_, _, _, rfl⟩
    · exact ⟨_, _, _, rfl⟩

theorem opsParagraphs_nil : opsParagraphs [] = [] := rfl

theorem opsParagraphs_ins_upd (i : Nat) (t : List Char) (s e : Nat) (st : String)
    (r : List Request) :
    opsParagraphs (Request.insertText i t :: Request.updateParagraphStyle s e st :: r)
      = (st, t.dropLast) :: opsParagraphs r := rfl

theorem opsParagraphs_ins_nil (i : Nat) (t : List Char) :
    opsParagraphs [Request.insertText i t] = [(("NORMAL_TEXT" : String), t.dropLast)] := rfl

theorem opsParagraphs_ins_ins (i : Nat) (t : List Char) (j : Nat) (u : List Char)
    (r : List Request) :
    opsParagraphs (Request.insertText i t :: Request.insertText j u :: r)
      = (("NORMAL_TEXT" : String), t.dropLast)
          :: opsParagraphs (Request.insertText j u :: r) := rfl

theorem opsParagraphs_del (a b : Nat) (r : List Request) :
    opsParagraphs (Request.deleteContentRange a b :: r) = opsParagraphs r := rfl

theorem uploadRequests_of_lt (endIdx : Nat) (markdown : List Char) (h : 1 < endIdx) :
    uploadRequests endIdx markdown
      = Request.deleteContentRange 1 (endIdx - 1) :: (buildLinesC 1 (splitNl markdown)).1 := by
  unfold uploadRequests
  rw [if_pos h, List.cons_append, List.nil_append]

theorem uploadRequests_of_le (endIdx : Nat) (markdown : List Char) (h : ¬1 < endIdx) :
    uploadRequests endIdx markdown = (buildLinesC 1 (splitNl markdown)).1 := by
  unfold uploadRequests
  rw [if_neg h, List.nil_append]

/-- C2: for every markup input and every initial end offset, the final
cursor of the Edit-Operation Builder equals 1 plus the total length of
all InsertText texts; the InsertText ranges are pairwise non-overlapping
(each ends no later than the next begins) and in fact consecutive from
offset 1, so each insertion advances the running cursor by exactly the
length of its text; and every updateParagraphStyle range `[s, e)` lies
inside the text inserted by the operations preceding it in the
sequence. -/
theorem claim_c2_offsets (markdown : List Char) (endIdx : Nat) :
    finalCursor markdown = 1 + insertedLen (uploadRequests endIdx markdown)
    ∧ List.Pairwise (fun a b : Nat × Nat => a.1 + a.2 ≤ b.1)
        (insertsOf (uploadRequests endIdx markdown))
    ∧ consecFrom 1 (insertsOf (uploadRequests endIdx markdown))
    ∧ (∀ pre s e st post,
        uploadRequests endIdx markdown = pre ++ Request.updateParagraphStyle s e st :: post →
        1 ≤ s ∧ s ≤ e ∧ e ≤ 1 + insertedLen pre) := by
  obtain ⟨h1, h2, h3, h4, h5⟩ := buildLinesC_core (splitNl markdown) 1
  by_cases hE : 1 < endIdx
  · rw [uploadRequests_of_lt endIdx markdown hE]
    refine ⟨?_, ?_, ?_, ?_⟩
    · rw [insertedLen_cons_del]
      exact h1
    · rw [insertsOf_cons_del]
      exact consecFrom_pairwise h2
    · rw [insertsOf_cons_del]
      exact h2
    · intro pre s e st post hdec
      cases pre with
      | nil =>
        rw [List.nil_append] at hdec
        exact Request.noConfusion (List.head_eq_of_cons_eq hdec)
      | cons q pre2 =>
        rw [List.cons_append] at hdec
        have hq := List.head_eq_of_cons_eq hdec
        have htail := List.tail_eq_of_cons_eq hdec
        subst hq
        rw [insertedLen_cons_del]
        exact h5 pre2 s e st post htail
  · rw [uploadRequests_of_le endIdx markdown hE]
    exact ⟨h1, consecFrom_pairwise h2, h2, h5⟩

theorem claim_c2_offsets_witness :
    finalCursor (("# Hi").data) = 1 + insertedLen (uploadRequests 3 (("# Hi").data))
    ∧ List.Pairwise (fun a b : Nat × Nat => a.1 + a.2 ≤ b.1)
        (insertsOf (uploadRequests 3 (("# Hi").data)))
    ∧ consecFrom 1 (insertsOf (uploadRequests 3 (("# Hi").data)))
    ∧ (1 ≤ 1 ∧ 1 ≤ 3 ∧ 3 ≤ 1 + insertedLen
        [Request.deleteContentRange 1 2,
         Request.insertText 1 (('H') :: ('i') :: ('\n') :: [])]) := by
  obtain ⟨h1, h2, h3, h4⟩ := claim_c2_offsets (("# Hi").data) 3
  exact ⟨h1, h2, h3,
    h4 [Request.deleteContentRange 1 2,
        Request.insertText 1 (('H') :: ('i') :: ('\n') :: [])]
      1 3 ("HEADING_1") [] (by decide)⟩

/-- C4: for every existing body end offset greater than 1 the builder's
first emitted operation is a DeleteRange covering offsets 1 through
(end offset − 1) and no other DeleteRange is emitted; when the end
offset is exactly 1 no DeleteRange is emitted at all. -/
theorem claim_c4_delete_guard (endIdx : Nat) (markdown : List Char) :
    (1 < endIdx → ∃ rest, uploadRequests endIdx markdown
        = Request.deleteContentRange 1 (endIdx - 1) :: rest
        ∧ ∀ a b, Request.deleteContentRange a b ∉ rest)
    ∧ (endIdx = 1 → ∀ a b, Request.deleteContentRange a b ∉ uploadRequests endIdx markdown) := by
  obtain ⟨-, -, h3, -, -⟩ := buildLinesC_core (splitNl markdown) 1
  constructor
  · intro h
    exact ⟨(buildLinesC 1 (splitNl markdown)).1,
      uploadRequests_of_lt endIdx markdown h, fun a b => h3 a b⟩
  · intro h a b hmem
    rw [h, uploadRequests_of_le 1 markdown (by omega)] at hmem
    exact h3 a b hmem

theorem claim_c4_delete_guard_witness :
    (∃ rest, uploadRequests 3 (("a").data) = Request.deleteContentRange 1 2 :: rest
        ∧ ∀ a b, Request.deleteContentRange a b ∉ rest)
    ∧ (∀ a b, Request.deleteContentRange a b ∉ uploadRequests 1 (("a").data)) :=
  ⟨(claim_c4_delete_guard 3 (("a").data)).1 (by omega),
   (claim_c4_delete_guard 1 (("a").data)).2 rfl⟩

/-- C10: every InsertText text emitted by the builder is a newline-
terminated line with no trailing whitespace before the newline (because
each input line is right-stripped before classification and insertion),
and a line of only whitespace characters is handled exactly like a
blank line: a single InsertText of a newline advancing the cursor
by 1. -/
theorem claim_c10_rstrip (markdown : List Char) (endIdx : Nat) :
    (∀ i t, Request.insertText i t ∈ uploadRequests endIdx markdown →
        t ≠ [] ∧ t.getLast? = some '\n' ∧ pyRstrip t.dropLast = t.dropLast)
    ∧ (∀ cursor raw, (∀ c ∈ raw, pyIsSpace c = true) →
        buildLine cursor raw = ([Request.insertText cursor [('\n')]], cursor + 1)) := by
  obtain ⟨-, -, -, h4, -⟩ := buildLinesC_core (splitNl markdown) 1
  constructor
  · intro i t hmem
    have hmem2 : Request.insertText i t ∈ (buildLinesC 1 (splitNl markdown)).1 := by
      unfold uploadRequests at hmem
      rcases List.mem_append.mp hmem with h | h
      · exfalso
        split_ifs at h <;> simp at h
      · exact h
    obtain ⟨u, hu, hru⟩ := h4 i t hmem2
    subst hu
    refine ⟨by simp, by simp, ?_⟩
    rw [List.dropLast_concat]
    exact hru
  · intro cursor raw h
    exact buildLine_blank cursor h

theorem claim_c10_rstrip_witness :
    ((('a') :: ('\n') :: []) ≠ []
      ∧ (('a') :: ('\n') :: []).getLast? = some '\n'
      ∧ pyRstrip (('a') :: ('\n') :: []).dropLast = (('a') :: ('\n') :: []).dropLast)
    ∧ buildLine 7 ((" \t").data) = ([Request.insertText 7 [('\n')]], 7 + 1) :=
  ⟨(claim_c10_rstrip (("a ").data) 1).1 1 (('a') :: ('\n') :: []) (by decide),
   (claim_c10_rstrip (("a ").data) 1).2 7 ((" \t").data) (by decide)⟩

/-! ### Lemmas about the serializer -/

theorem serializeParagraph_headingMark (p : Paragraph) :
    serializeParagraph p =
      (if pyStrip (assembleParagraph p) = [] then []
       else headingMark p.style ++ pyStrip (assembleParagraph p) ++ [('\n')]) := by
  unfold serializeParagraph headingMark
  simp only []
  split_ifs <;> simp

theorem assembleParagraph_plain (p : Paragraph) (h : ∀ r ∈ p.runs, plainRun r) :
    assembleParagraph p = rawText p := by
  unfold assembleParagraph rawText
  congr 1
  refine List.map_congr_left (fun r hr => ?_)
  obtain ⟨hb, hi, hu⟩ := h r hr
  simp [wrapRun, hb, hi, hu]

theorem headingMark_repr (k : Nat) (hk1 : 1 ≤ k) (hk6 : k ≤ 6) :
    headingMark ("HEADING_" ++ Nat.repr k) = List.replicate k '#' ++ [(' ')] := by
  interval_cases k <;> decide

theorem serializeParagraph_heading (k : Nat) (hk1 : 1 ≤ k) (hk6 : k ≤ 6) (p : Paragraph)
    (hst : p.style = "HEADING_" ++ Nat.repr k)
    (hne : pyStrip (assembleParagraph p) ≠ []) :
    serializeParagraph p
      = List.replicate k '#' ++ (' ') :: (pyStrip (assembleParagraph p) ++ [('\n')]) := by
  rw [serializeParagraph_headingMark, if_neg hne, hst, headingMark_repr k hk1 hk6]
  simp

/-- C5 (amended): the serializer joins a paragraph's style-wrapped runs,
trims the result, and emits nothing when the trimmed text is empty; in
particular a purely-whitespace paragraph whose runs are all unstyled
produces no output. (A styled whitespace run is wrapped in markers
before trimming, so such a paragraph does produce output; see the
counterexample.) -/
theorem claim_c5_empty_drop :
    (∀ p : Paragraph, pyStrip (assembleParagraph p) = [] → serializeParagraph p = [])
    ∧ (∀ p : Paragraph, (∀ r ∈ p.runs, plainRun r) →
        (∀ r ∈ p.runs, ∀ c ∈ r.content, pyIsSpace c = true) →
        serializeParagraph p = []) := by
  constructor
  · intro p h
    rw [serializeParagraph_headingMark, if_pos h]
  · intro p hplain hsp
    have hsp2 : ∀ c ∈ rawText p, pyIsSpace c = true := by
      intro c hc
      unfold rawText at hc
      obtain ⟨l, hl, hcl⟩ := List.mem_flatten.mp hc
      obtain ⟨r, hr, hrl⟩ := List.mem_map.mp hl
      exact hsp r hr c (hrl ▸ hcl)
    rw [serializeParagraph_headingMark, assembleParagraph_plain p hplain,
      if_pos (pyStrip_all_space hsp2)]

theorem claim_c5_empty_drop_witness :
    serializeParagraph ⟨("NORMAL_TEXT"), [⟨((" ").data), false, false, false⟩]⟩ = []
    ∧ serializeParagraph ⟨("HEADING_2"), []⟩ = [] :=
  ⟨(claim_c5_empty_drop).2 _ (by simp [plainRun]) (by decide),
   (claim_c5_empty_drop).1 _ (by decide)⟩

/-- C5 counterexample: a paragraph whose raw text is purely whitespace
but whose single run is bold serializes to `"** **\n"`, not to nothing —
the bold markers are applied before the trim, so the claim's "every
purely-whitespace paragraph produces no output" fails. -/
theorem claim_c5_counterexample :
    (∀ c ∈ rawText ⟨("NORMAL_TEXT"), [⟨[(' ')], true, false, false⟩]⟩,
        pyIsSpace c = true)
    ∧ serializeParagraph ⟨("NORMAL_TEXT"), [⟨[(' ')], true, false, false⟩]⟩
        = ("** **\n").data := by
  decide

/-- C6: inline wrapping is applied per run in a fixed nesting order —
bold (doubled asterisk) innermost, then italic (single asterisk), then
underline (inline tag) — each marker controlled independently by its
flag; the assembled paragraph is the concatenation of the per-run
wrappings; a heading style `HEADING_k` (1 ≤ k ≤ 6) prefixes the line
with k `'#'` characters and a space; and the paragraph with style
HEADING_2 and a single bold run "Title" serializes to exactly
`"## **Title**\n"`. -/
theorem claim_c6_inline_wrapping :
    (∀ r : TextRun, wrapRun r =
        (if r.underline then
            ("<u>").data
            ++ (if r.italic then
                  ("*").data
                  ++ (if r.bold then ("**").data ++ r.content ++ ("**").data else r.content)
                  ++ ("*").data
                else (if r.bold then ("**").data ++ r.content ++ ("**").data else r.content))
            ++ ("</u>").data
          else
            (if r.italic then
              ("*").data
              ++ (if r.bold then ("**").data ++ r.content ++ ("**").data else r.content)
              ++ ("*").data
            else (if r.bold then ("**").data ++ r.content ++ ("**").data else r.content))))
    ∧ (∀ p : Paragraph, assembleParagraph p = (p.runs.map wrapRun).flatten)
    ∧ (∀ k, 1 ≤ k → k ≤ 6 → ∀ p : Paragraph,
        p.style = "HEADING_" ++ Nat.repr k →
        pyStrip (assembleParagraph p) ≠ [] →
        serializeParagraph p
          = List.replicate k '#' ++ (' ') :: (pyStrip (assembleParagraph p) ++ [('\n')]))
    ∧ serializeParagraph ⟨("HEADING_2"), [⟨("Title").data, true, false, false⟩]⟩
        = ("## **Title**\n").data := by
  refine ⟨fun r => rfl, fun p => rfl, serializeParagraph_heading, by decide⟩

theorem claim_c6_inline_wrapping_witness :
    serializeParagraph ⟨("HEADING_3"), [⟨("Hi").data, false, false, false⟩]⟩
      = List.replicate 3 '#' ++ (' ')
          :: (pyStrip (assembleParagraph
                ⟨("HEADING_3"), [⟨("Hi").data, false, false, false⟩]⟩) ++ [('\n')]) :=
  (claim_c6_inline_wrapping).2.2.1 3 (by decide) (by decide) _ (by decide) (by decide)

/-- C7 (amended): a table with zero rows emits nothing; a table whose
header row (row 0) has at least one cell emits the pipe-delimited header
line, a `---` separator of the same column count, the remaining rows
that have at least one cell as pipe-delimited lines (cell-less rows are
skipped), and a trailing blank line; and the two-by-two sample table
serializes to exactly the expected markup. (A table whose first row has
zero cells emits nothing as well; see the counterexample.) -/
theorem claim_c7_table_shape :
    serializeTable [] = []
    ∧ (∀ headerRow dataRows, rowCellsOf headerRow ≠ [] →
        serializeTable (headerRow :: dataRows)
          = pipeRow (rowCellsOf headerRow)
            ++ pipeRow ((rowCellsOf headerRow).map (fun _ => ("---").data))
            ++ (dataRows.map (fun row =>
                  if rowCellsOf row = [] then [] else pipeRow (rowCellsOf row))).flatten
            ++ [('\n')])
    ∧ serializeBody [Element.table
          [[sampleCell ("A"), sampleCell ("B")], [sampleCell ("1"), sampleCell ("2")]]]
        = ("| A | B |\n| --- | --- |\n| 1 | 2 |\n\n").data := by
  refine ⟨rfl, ?_, by decide⟩
  intro h d hne
  unfold serializeTable
  simp only []
  rw [if_neg hne]

theorem claim_c7_table_shape_witness :
    serializeTable [[sampleCell ("A")]]
      = pipeRow (rowCellsOf [sampleCell ("A")])
        ++ pipeRow ((rowCellsOf [sampleCell ("A")]).map (fun _ => ("---").data))
        ++ (([] : List (List (List Element))).map (fun row =>
              if rowCellsOf row = [] then [] else pipeRow (rowCellsOf row))).flatten
        ++ [('\n')] :=
  (claim_c7_table_shape).2.1 [sampleCell ("A")] [] (by decide)

/-- C7 counterexample: a table with one row and zero cells has a
non-empty row list, yet the serializer emits nothing for it — the header
row promised by the claim is missing because the cell list of row 0 is
empty. -/
theorem claim_c7_counterexample :
    ([[]] : List (List (List Element))) ≠ []
    ∧ serializeTable [[]] = []
    ∧ serializeBody [Element.table [[]]] = [] :=
  ⟨List.cons_ne_nil _ _, rfl, rfl⟩

/-! ### Lemmas about document-id extraction -/

theorem contains_false_iff (l : List Char) (a : Char) :
    l.contains a = false ↔ a ∉ l := by
  constructor
  · intro h hm
    have h2 : l.contains a = true := List.elem_iff.mpr hm
    rw [h] at h2
    exact Bool.noConfusion h2
  · intro hm
    by_contra h
    rw [Bool.not_eq_false] at h
    exact hm (List.elem_iff.mp h)

theorem findCapture_none_of_absent {lit : List Char} {bad : Char}
    (hbad : bad ∈ lit) (hbadid : isIdChar bad = false) :
    ∀ {s : List Char}, (∀ c ∈ s, isIdChar c = true) → findCapture lit s = none := by
  intro s
  induction s with
  | nil => intro _; rfl
  | cons c rest ih =>
    intro h
    unfold findCapture
    have hpre : ¬(lit.isPrefixOf (c :: rest) = true) := by
      intro hck
      have hp : lit <+: c :: rest := List.isPrefixOf_iff_prefix.mp hck
      have h2 := h bad (hp.subset hbad)
      rw [h2] at hbadid
      exact Bool.noConfusion hbadid
    rw [if_neg hpre]
    exact ih (fun x hx => h x (List.mem_cons_of_mem c hx))

theorem bare_cond_iff (s : String) :
    (!(s.data.contains '/') && !(s.data.contains '.') && bareMatch s.data) = true
      ↔ (('/') ∉ s.data ∧ ('.') ∉ s.data ∧ bareMatch s.data = true) := by
  rw [Bool.and_eq_true, Bool.and_eq_true, Bool.not_eq_true', Bool.not_eq_true',
    contains_false_iff, contains_false_iff]
  constructor
  · rintro ⟨⟨a, b⟩, c⟩; exact ⟨a, b, c⟩
  · rintro ⟨a, b, c⟩; exact ⟨⟨a, b⟩, c⟩

theorem extract_bare_ok (s : String) (hall : ∀ c ∈ s.data, isIdChar c = true)
    (hlen : 10 ≤ s.data.length) : extract_document_id s = Except.ok s := by
  unfold extract_document_id
  rw [findCapture_none_of_absent (show ('/') ∈ (("/document/d/").data) by decide)
      (by decide) hall]
  rw [findCapture_none_of_absent (show ('=') ∈ (("id=").data) by decide)
      (by decide) hall]
  have hslash : s.data.contains '/' = false :=
    (contains_false_iff _ _).mpr (fun hm => by
      have h2 := hall '/' hm
      exact absurd h2 (by decide))
  have hdot : s.data.contains '.' = false :=
    (contains_false_iff _ _).mpr (fun hm => by
      have h2 := hall '.' hm
      exact absurd h2 (by decide))
  have htw : s.data.takeWhile isIdChar = s.data :=
    List.takeWhile_eq_self_iff.mpr (fun x hx => by simp [hall x hx])
  have hbm : bareMatch s.data = true := by
    unfold bareMatch
    simp only []
    rw [htw, List.drop_length]
    simp
    exact hlen
  rw [if_pos (by rw [hslash, hdot, hbm]; decide)]

/-- C8 (amended): `extract_document_id` returns the captured id for the
`/document/d/{id}` and `id={id}` URL shapes, returns a bare input
unchanged whenever it consists only of id characters
(alphanumeric/dash/underscore) with length at least 10, fails on
`"short"`, and fails exactly when none of the code's three shapes
matches — where the bare-id shape, through the Python `$` anchor, also
tolerates exactly one trailing newline after the id characters (see the
counterexample). -/
theorem claim_c8_extract :
    extract_document_id ("https://docs.google.com/document/d/abc123XYZ_-/edit?usp=sharing")
        = Except.ok ("abc123XYZ_-")
    ∧ extract_document_id ("abc123XYZ_-") = Except.ok ("abc123XYZ_-")
    ∧ (extract_document_id ("short")).isOk = false
    ∧ (∀ s : String, (∀ c ∈ s.data, isIdChar c = true) → 10 ≤ s.data.length →
        extract_document_id s = Except.ok s)
    ∧ (∀ s : String, (extract_document_id s).isOk = false ↔
        (findCapture (("/document/d/").data) s.data = none
         ∧ findCapture (("id=").data) s.data = none
         ∧ ¬(('/') ∉ s.data ∧ ('.') ∉ s.data ∧ bareMatch s.data = true))) := by
  refine ⟨rfl, rfl, rfl, extract_bare_ok, ?_⟩
  intro s
  unfold extract_document_id
  cases hf1 : findCapture (("/document/d/").data) s.data with
  | some run =>
    constructor
    · intro h; exact Bool.noConfusion h
    · rintro ⟨h1, -, -⟩; exact Option.noConfusion h1
  | none =>
    cases hf2 : findCapture (("id=").data) s.data with
    | some run =>
      constructor
      · intro h; exact Bool.noConfusion h
      · rintro ⟨-, h2, -⟩; exact Option.noConfusion h2
    | none =>
      split_ifs with hc
      · have hcond := (bare_cond_iff s).mp hc
        constructor
        · intro h; exact Bool.noConfusion h
        · rintro ⟨-, -, h3⟩; exact absurd hcond h3
      · constructor
        · intro _
          exact ⟨rfl, rfl, fun h => hc ((bare_cond_iff s).mpr h)⟩
        · intro _
          rfl

theorem claim_c8_extract_witness :
    extract_document_id ("abcdefgh-_23") = Except.ok ("abcdefgh-_23")
    ∧ ((extract_document_id ("short")).isOk = false ↔
        (findCapture (("/document/d/").data) (("short").data) = none
         ∧ findCapture (("id=").data) (("short").data) = none
         ∧ ¬(('/') ∉ ("short").data ∧ ('.') ∉ ("short").data
              ∧ bareMatch (("short").data) = true))) :=
  ⟨(claim_c8_extract).2.2.2.1 ("abcdefgh-_23") (by decide) (by decide),
   (claim_c8_extract).2.2.2.2 ("short")⟩

/-- C8 counterexample: the input `"abcdefghij\n"` (ten id characters
followed by a newline) matches none of the claim's shapes — it is not a
URL shape and it contains a character outside the id alphabet — yet the
code returns it unchanged instead of raising, because Python's `$`
anchor in `re.match(r"^[a-zA-Z0-9-_]{10,}$", ...)` also matches just
before a trailing newline. The claim's "raises if and only if no shape
matches" therefore fails. -/
theorem claim_c8_counterexample :
    extract_document_id ("abcdefghij\n") = Except.ok ("abcdefghij\n")
    ∧ isIdChar ('\n') = false
    ∧ ('\n') ∈ ("abcdefghij\n").data
    ∧ ('/') ∉ ("abcdefghij\n").data
    ∧ findCapture (("/document/d/").data) (("abcdefghij\n").data) = none
    ∧ findCapture (("id=").data) (("abcdefghij\n").data) = none :=
  ⟨rfl, by decide, by decide, by decide, by decide, by decide⟩

/-- C9: a gateway call failing with an HTTP status in
{429, 500, 502, 503, 504} is retried with exponential backoff (sleeping
1 then 2 seconds) up to MAX_RETRIES = 3 attempts in total, after which
the error is surfaced; an HTTP error with any other status is raised
immediately after the first call and is never retried; and a retryable
failure followed by a success returns the success after the second
attempt. -/
theorem claim_c9_retry :
    (∀ (α : Type) (call : Nat → CallResult α) (c : Nat),
        c ∈ RETRYABLE_ERROR_CODES →
        (∀ i, call i = CallResult.httpError (some c)) →
        execute_with_retry call = ⟨RetryResult.httpError (some c), 3, [1, 2]⟩)
    ∧ (∀ (α : Type) (call : Nat → CallResult α) (c : Nat),
        c ∉ RETRYABLE_ERROR_CODES →
        call 0 = CallResult.httpError (some c) →
        execute_with_retry call = ⟨RetryResult.httpError (some c), 1, []⟩)
    ∧ (∀ (α : Type) (call : Nat → CallResult α) (c : Nat) (a : α),
        c ∈ RETRYABLE_ERROR_CODES →
        call 0 = CallResult.httpError (some c) → call 1 = CallResult.ok a →
        execute_with_retry call = ⟨RetryResult.ok a, 2, [1]⟩) := by
  refine ⟨?_, ?_, ?_⟩
  · intro α call c hmem hcall
    have hr : isRetryable (some c) = true := List.elem_iff.mpr hmem
    simp [execute_with_retry, MAX_RETRIES, retryGo, hcall, hr, RETRY_DELAY_SECONDS]
  · intro α call c hmem hcall
    have hr : isRetryable (some c) = false :=
      by
        unfold isRetryable
        by_contra h
        rw [Bool.not_eq_false] at h
        exact hmem (List.elem_iff.mp h)
    simp [execute_with_retry, MAX_RETRIES, retryGo, hcall, hr]
  · intro α call c a hmem hcall0 hcall1
    have hr : isRetryable (some c) = true := List.elem_iff.mpr hmem
    simp [execute_with_retry, MAX_RETRIES, retryGo, hcall0, hcall1, hr,
      RETRY_DELAY_SECONDS]

theorem claim_c9_retry_witness :
    execute_with_retry ((fun _ => CallResult.httpError (some 503)) : Nat → CallResult Nat)
      = ⟨RetryResult.httpError (some 503), 3, [1, 2]⟩
    ∧ execute_with_retry ((fun _ => CallResult.httpError (some 404)) : Nat → CallResult Nat)
      = ⟨RetryResult.httpError (some 404), 1, []⟩
    ∧ execute_with_retry
        ((fun i => if i = 0 then CallResult.httpError (some 429) else CallResult.ok 7) :
          Nat → CallResult Nat)
      = ⟨RetryResult.ok 7, 2, [1]⟩ :=
  ⟨(claim_c9_retry).1 Nat _ 503 (by decide) (fun i => rfl),
   (claim_c9_retry).2.1 Nat _ 404 (by decide) rfl,
   (claim_c9_retry).2.2 Nat _ 429 7 (by decide) rfl rfl⟩

/-- C3 (amended): for every raw markup line whose right-stripped form
begins with `'#'`, the builder computes the level as the count of
leading `'#'` characters, recovers the heading text by removing ALL
leading `'#'` and `' '` characters (interleaved, `lstrip("# ")`) and
stripping the remainder — not by removing only the `'#'` run and one
following space — emits InsertText(cursor, text + "\n") followed by
SetParagraphStyle over [cursor, cursor + len(text)) with style name
`"HEADING_{min(level, 6)}"`, and advances the cursor by len(text) + 1;
the clamped level always lies in [1, 6], and 7 or more `'#'` characters
yield exactly `HEADING_6`, never an out-of-range style name. -/
theorem claim_c3_heading_line (cursor : Nat) (rawLine : List Char)
    (h : (pyRstrip rawLine).head? = some '#') :
    (buildLine cursor rawLine
      = ([Request.insertText cursor
            (pyStrip ((pyRstrip rawLine).dropWhile (fun c => c = '#' || c = ' '))
              ++ [('\n')]),
          Request.updateParagraphStyle cursor
            (cursor + (pyStrip ((pyRstrip rawLine).dropWhile
                (fun c => c = '#' || c = ' '))).length)
            ("HEADING_" ++ Nat.repr (min ((pyRstrip rawLine).length
                - ((pyRstrip rawLine).dropWhile (fun c => c = '#')).length) 6))],
         cursor + (pyStrip ((pyRstrip rawLine).dropWhile
            (fun c => c = '#' || c = ' '))).length + 1))
    ∧ 1 ≤ min ((pyRstrip rawLine).length
          - ((pyRstrip rawLine).dropWhile (fun c => c = '#')).length) 6
    ∧ min ((pyRstrip rawLine).length
          - ((pyRstrip rawLine).dropWhile (fun c => c = '#')).length) 6 ≤ 6
    ∧ (7 ≤ (pyRstrip rawLine).length
          - ((pyRstrip rawLine).dropWhile (fun c => c = '#')).length →
        "HEADING_" ++ Nat.repr (min ((pyRstrip rawLine).length
            - ((pyRstrip rawLine).dropWhile (fun c => c = '#')).length) 6)
          = "HEADING_6") := by
  have hne : pyRstrip rawLine ≠ [] := by
    intro hnil
    rw [hnil] at h
    exact Option.noConfusion h
  refine ⟨?_, ?_, Nat.min_le_right _ _, ?_⟩
  · unfold buildLine
    simp only []
    rw [if_neg hne, if_pos h]
  · cases hline : pyRstrip rawLine with
    | nil => exact absurd hline hne
    | cons a tl =>
      have ha : a = '#' := by
        rw [hline] at h
        exact Option.some.inj h
      have hle : (tl.dropWhile (fun c => c = '#')).length ≤ tl.length :=
        (List.dropWhile_suffix _).sublist.length_le
      subst ha
      rw [Nat.le_min]
      refine ⟨?_, by omega⟩
      rw [List.dropWhile_cons]
      simp
      omega
  · intro h7
    rw [Nat.min_eq_right (by omega)]
    decide

theorem claim_c3_heading_line_witness :
    (buildLine 1 (("### Hi").data)
      = ([Request.insertText 1
            (pyStrip ((pyRstrip (("### Hi").data)).dropWhile (fun c => c = '#' || c = ' '))
              ++ [('\n')]),
          Request.updateParagraphStyle 1
            (1 + (pyStrip ((pyRstrip (("### Hi").data)).dropWhile
                (fun c => c = '#' || c = ' '))).length)
            ("HEADING_" ++ Nat.repr (min ((pyRstrip (("### Hi").data)).length
                - ((pyRstrip (("### Hi").data)).dropWhile (fun c => c = '#')).length) 6))],
         1 + (pyStrip ((pyRstrip (("### Hi").data)).dropWhile
            (fun c => c = '#' || c = ' '))).length + 1))
    ∧ 1 ≤ min ((pyRstrip (("### Hi").data)).length
          - ((pyRstrip (("### Hi").data)).dropWhile (fun c => c = '#')).length) 6
    ∧ min ((pyRstrip (("### Hi").data)).length
          - ((pyRstrip (("### Hi").data)).dropWhile (fun c => c = '#')).length) 6 ≤ 6 :=
  ⟨(claim_c3_heading_line 1 (("### Hi").data) (by decide)).1,
   (claim_c3_heading_line 1 (("### Hi").data) (by decide)).2.1,
   (claim_c3_heading_line 1 (("### Hi").data) (by decide)).2.2.1⟩

/-- C3 counterexample: on the markup line `"# # x"` the code recovers
the heading text `"x"` — `lstrip("# ")` removes all interleaved leading
`'#'` and space characters — whereas the claim's rule, stripping the
leading `'#'` run and one following space, would recover `"# x"` and a
style range of width 3. The claimed operation list is therefore not the
one the builder emits. -/
theorem claim_c3_counterexample :
    uploadRequests 1 (("# # x").data)
      = [Request.insertText 1 (('x') :: ('\n') :: []),
         Request.updateParagraphStyle 1 2 ("HEADING_1")]
    ∧ uploadRequests 1 (("# # x").data)
      ≠ [Request.insertText 1 (('#') :: (' ') :: ('x') :: ('\n') :: []),
         Request.updateParagraphStyle 1 4 ("HEADING_1")] := by
  exact ⟨by decide, by decide⟩

/-! ### Round-trip machinery for the supported subset -/

theorem pyRstrip_append_right (pre : List Char) {t : List Char}
    (hne : t ≠ []) (hstrip : pyStrip t = t) :
    pyRstrip (pre ++ t) = pre ++ t := by
  have hTd := List.dropLast_concat_getLast hne
  have hlast : pyIsSpace (t.getLast hne) = false := by
    apply strip_last_not_space (u := t.dropLast)
    rw [hTd]
    exact hstrip
  conv_lhs => rw [← hTd, ← List.append_assoc]
  rw [pyRstrip_concat_of_not _ hlast, List.append_assoc, hTd]

theorem serializeBody_cons (e : Element) (es : List Element) :
    serializeBody (e :: es) = serializeElement e ++ serializeBody es := rfl

theorem serializeParagraph_good (p : Paragraph) (hp : goodPara p) :
    serializeParagraph p = lineOf p ++ [('\n')] := by
  obtain ⟨hs, hplain, hne, hstrip, hnl, hhd⟩ := hp
  rw [serializeParagraph_headingMark, assembleParagraph_plain p hplain, hstrip,
    if_neg hne]
  unfold lineOf
  rw [List.append_assoc]

theorem nl_not_mem_headingMark (s : String) : ('\n') ∉ headingMark s := by
  unfold headingMark
  split_ifs <;> decide

theorem nl_not_mem_lineOf (p : Paragraph) (hp : goodPara p) : ('\n') ∉ lineOf p := by
  obtain ⟨-, -, -, -, hnl, -⟩ := hp
  unfold lineOf
  intro hmem
  rcases List.mem_append.mp hmem with h | h
  · exact nl_not_mem_headingMark _ h
  · exact hnl h

theorem serializeBody_good (ps : List Paragraph) (h : ∀ p ∈ ps, goodPara p) :
    serializeBody (ps.map (fun p => Element.paragraph p.style p.runs))
      = ((ps.map lineOf).map (fun l => l ++ [('\n')])).flatten := by
  induction ps with
  | nil => rfl
  | cons p ps ih =>
    rw [List.map_cons, serializeBody_cons, List.map_cons, List.map_cons,
      List.flatten_cons]
    rw [show serializeElement (Element.paragraph p.style p.runs)
        = serializeParagraph p from rfl]
    rw [serializeParagraph_good p (h p (List.mem_cons_self p ps))]
    rw [ih (fun q hq => h q (List.mem_cons_of_mem p hq))]

theorem splitNl_lines (lines : List (List Char)) (h : ∀ l ∈ lines, ('\n') ∉ l) :
    splitNl ((lines.map (fun l => l ++ [('\n')])).flatten) = lines ++ [[]] := by
  induction lines with
  | nil => rfl
  | cons l ls ih =>
    rw [List.map_cons, List.flatten_cons, List.append_assoc, List.singleton_append]
    rw [splitNl_line _ (h l (List.mem_cons_self l ls))]
    rw [ih (fun x hx => h x (List.mem_cons_of_mem l hx))]
    rw [List.cons_append]

theorem buildLine_heading_level (c k : Nat) (hk1 : 1 ≤ k) (t : List Char)
    (hne : t ≠ []) (hstrip : pyStrip t = t) (hhd : t.head? ≠ some '#') :
    buildLine c (List.replicate k '#' ++ (' ') :: t)
      = ([Request.insertText c (t ++ [('\n')]),
          Request.updateParagraphStyle c (c + t.length)
            ("HEADING_" ++ Nat.repr (min k 6))],
         c + t.length + 1) := by
  obtain ⟨k0, rfl⟩ : ∃ k0, k = k0 + 1 := ⟨k - 1, by omega⟩
  obtain ⟨c0, t0, hT⟩ : ∃ c0 t0, t = c0 :: t0 := by
    cases t with
    | nil => exact absurd rfl hne
    | cons a b => exact ⟨a, b, rfl⟩
  have hc0sp : pyIsSpace c0 = false := strip_head_not_space (hT ▸ hstrip)
  have hc0hash : ¬(c0 = '#') := by
    intro he
    apply hhd
    rw [hT, he]
    rfl
  have hc0spc : ¬(c0 = ' ') := by
    intro he
    have h2 := hc0sp
    rw [he] at h2
    exact absurd h2 (by decide)
  have hshape : List.replicate (k0+1) '#' ++ (' ') :: t
      = (List.replicate (k0+1) '#' ++ [(' ')]) ++ t := by
    rw [List.append_assoc, List.singleton_append]
  have hrs : pyRstrip (List.replicate (k0+1) '#' ++ (' ') :: t)
      = List.replicate (k0+1) '#' ++ (' ') :: t := by
    rw [hshape]
    exact pyRstrip_append_right _ hne hstrip
  have hlineNe : List.replicate (k0+1) '#' ++ (' ') :: t ≠ [] := by
    rw [List.replicate_succ]
    simp
  have hhead : (List.replicate (k0+1) '#' ++ (' ') :: t).head? = some '#' := by
    rw [List.replicate_succ]
    rfl
  have hdrop1 : (List.replicate (k0+1) '#' ++ (' ') :: t).dropWhile
      (fun c => c = '#') = (' ') :: t := by
    rw [List.dropWhile_append_of_pos
      (by intro a ha; rw [List.eq_of_mem_replicate ha]; decide)]
    rw [List.dropWhile_cons, if_neg (by decide)]
  have hdrop2 : (List.replicate (k0+1) '#' ++ (' ') :: t).dropWhile
      (fun c => c = '#' || c = ' ') = t := by
    rw [List.dropWhile_append_of_pos
      (by intro a ha; rw [List.eq_of_mem_replicate ha]; decide)]
    rw [List.dropWhile_cons, if_pos (by decide), hT, List.dropWhile_cons,
      if_neg (by simp [hc0hash, hc0spc])]
  have hlevel : (List.replicate (k0+1) '#' ++ (' ') :: t).length
      - ((List.replicate (k0+1) '#' ++ (' ') :: t).dropWhile
          (fun c => c = '#')).length = k0 + 1 := by
    rw [hdrop1]
    simp only [List.length_append, List.length_replicate, List.length_cons]
    omega
  unfold buildLine
  simp only []
  rw [hrs, if_neg hlineNe, if_pos hhead, hdrop2, hlevel, hstrip]

theorem buildLine_good_heading (c k : Nat) (hk1 : 1 ≤ k) (p : Paragraph)
    (hmark : headingMark p.style = List.replicate k '#' ++ [(' ')])
    (hname : "HEADING_" ++ Nat.repr (min k 6) = p.style)
    (hne : rawText p ≠ []) (hstrip : pyStrip (rawText p) = rawText p)
    (hhd : (rawText p).head? ≠ some '#') :
    buildLine c (lineOf p)
      = ([Request.insertText c (rawText p ++ [('\n')]),
          Request.updateParagraphStyle c (c + (rawText p).length) p.style],
         c + (rawText p).length + 1) := by
  unfold lineOf
  rw [hmark, List.append_assoc, List.singleton_append]
  rw [buildLine_heading_level c k hk1 (rawText p) hne hstrip hhd, hname]

theorem buildLine_good (c : Nat) (p : Paragraph) (hp : goodPara p) :
    ∃ ops, buildLine c (lineOf p) = (ops, c + (rawText p).length + 1)
      ∧ ∀ z : List Request,
          (z = [] ∨ ∃ i t r, z = Request.insertText i t :: r) →
          opsParagraphs (ops ++ z) = (p.style, rawText p) :: opsParagraphs z := by
  obtain ⟨hs, hplain, hne, hstrip, hnl, hhd⟩ := hp
  simp only [allowedStyles, List.mem_cons, List.not_mem_nil, or_false] at hs
  rcases hs with h | h | h | h | h | h | h
  · -- NORMAL_TEXT
    obtain ⟨c0, t0, hT⟩ : ∃ c0 t0, rawText p = c0 :: t0 := by
      cases hT : rawText p with
      | nil => exact absurd hT hne
      | cons a b => exact ⟨a, b, rfl⟩
    have hline : lineOf p = rawText p := by
      unfold lineOf
      rw [h]
      rw [show headingMark ("NORMAL_TEXT") = [] from by decide, List.nil_append]
    have hrs : pyRstrip (rawText p) = rawText p := pyRstrip_eq_self_of_strip hstrip
    have hhead : ¬((rawText p).head? = some '#') := hhd
    have hb : buildLine c (lineOf p)
        = ([Request.insertText c (rawText p ++ [('\n')])],
           c + (rawText p).length + 1) := by
      rw [hline]
      unfold buildLine
      simp only []
      rw [hrs, if_neg hne, if_neg hhead, ite_self]
    refine ⟨_, hb, ?_⟩
    intro z hz
    rcases hz with rfl | ⟨i, t, r, rfl⟩
    · rw [List.append_nil, opsParagraphs_ins_nil, List.dropLast_concat, h,
        opsParagraphs_nil]
    · rw [List.singleton_append, opsParagraphs_ins_ins, List.dropLast_concat, h]
  all_goals {
    first
    | (have hb := buildLine_good_heading c 1 (by omega) p
          (by rw [h]; decide) (by rw [h]; decide) hne hstrip hhd)
    | (have hb := buildLine_good_heading c 2 (by omega) p
          (by rw [h]; decide) (by rw [h]; decide) hne hstrip hhd)
    | (have hb := buildLine_good_heading c 3 (by omega) p
          (by rw [h]; decide) (by rw [h]; decide) hne hstrip hhd)
    | (have hb := buildLine_good_heading c 4 (by omega) p
          (by rw [h]; decide) (by rw [h]; decide) hne hstrip hhd)
    | (have hb := buildLine_good_heading c 5 (by omega) p
          (by rw [h]; decide) (by rw [h]; decide) hne hstrip hhd)
    | (have hb := buildLine_good_heading c 6 (by omega) p
          (by rw [h]; decide) (by rw [h]; decide) hne hstrip hhd)
    refine ⟨_, hb, ?_⟩
    intro z hz
    show opsParagraphs (Request.insertText c (rawText p ++ [('\n')])
        :: Request.updateParagraphStyle c (c + (rawText p).length) p.style :: z)
      = _
    rw [opsParagraphs_ins_upd, List.dropLast_concat] }

theorem roundtrip_core (ps : List Paragraph) : ∀ c : Nat, (∀ p ∈ ps, goodPara p) →
    opsParagraphs ((buildLinesC c ((ps.map lineOf) ++ [[]])).1)
      = ps.map (fun p => (p.style, rawText p))
          ++ [(("NORMAL_TEXT" : String), ([] : List Char))] := by
  induction ps with
  | nil => intro c h; rfl
  | cons p ps ih =>
    intro c h
    have hp := h p (List.mem_cons_self p ps)
    obtain ⟨ops, hbl, hdec⟩ := buildLine_good c p hp
    rw [List.map_cons, List.cons_append, buildLinesC_cons, hbl]
    have hz := buildLinesC_head ((ps.map lineOf) ++ [[]]) (c + (rawText p).length + 1)
    rw [hdec _ hz]
    rw [ih (c + (rawText p).length + 1) (fun q hq => h q (List.mem_cons_of_mem p hq))]
    rw [List.map_cons, List.cons_append]

/-- C1 (amended): restricted to the subset that actually survives the
code's round trip — paragraphs with styles NORMAL_TEXT/HEADING_1..6
whose runs are all UNSTYLED and whose plain text is non-empty, free of
leading/trailing whitespace and of embedded newlines, and does not
begin with `'#'` — serializing the tree and re-parsing the markup with
the Edit-Operation Builder reproduces the original paragraph order,
each paragraph's named style, and its raw text, followed by one extra
trailing empty NORMAL_TEXT paragraph (an artifact of splitting the
final newline). Runs that use bold or italic do NOT round-trip: the
builder never strips inline markers, so the markers become part of the
text (see the counterexample); leading/trailing whitespace is lost to
the serializer's trim, and a paragraph text starting with `'#'` would
be re-parsed as a heading. -/
theorem claim_c1_roundtrip (ps : List Paragraph) (endIdx : Nat)
    (h : ∀ p ∈ ps, goodPara p) :
    opsParagraphs (uploadRequests endIdx
        (serializeBody (ps.map (fun p => Element.paragraph p.style p.runs))))
      = ps.map (fun p => (p.style, rawText p))
          ++ [(("NORMAL_TEXT" : String), ([] : List Char))] := by
  have hlines : ∀ l ∈ ps.map lineOf, ('\n') ∉ l := by
    intro l hl
    obtain ⟨p, hpmem, rfl⟩ := List.mem_map.mp hl
    exact nl_not_mem_lineOf p (h p hpmem)
  rw [serializeBody_good ps h]
  by_cases hE : 1 < endIdx
  · rw [uploadRequests_of_lt _ _ hE, opsParagraphs_del, splitNl_lines _ hlines]
    exact roundtrip_core ps 1 h
  · rw [uploadRequests_of_le _ _ hE, splitNl_lines _ hlines]
    exact roundtrip_core ps 1 h

theorem claim_c1_roundtrip_witness :
    opsParagraphs (uploadRequests 5
        (serializeBody
          [Element.paragraph ("HEADING_2")
              [⟨("Ti").data, false, false, false⟩, ⟨("tle").data, false, false, false⟩],
           Element.paragraph ("NORMAL_TEXT") [⟨("a b").data, false, false, false⟩]]))
      = [(("HEADING_2" : String), ("Title").data),
         (("NORMAL_TEXT" : String), ("a b").data),
         (("NORMAL_TEXT" : String), ([] : List Char))] := by
  have h := claim_c1_roundtrip
    [⟨("HEADING_2"), [⟨("Ti").data, false, false, false⟩, ⟨("tle").data, false, false, false⟩]⟩,
     ⟨("NORMAL_TEXT"), [⟨("a b").data, false, false, false⟩]⟩] 5
    (by
      intro p hp
      rcases List.mem_cons.mp hp with rfl | hp2
      · exact ⟨by decide, by simp [plainRun], by decide, by decide, by decide, by decide⟩
      rcases List.mem_cons.mp hp2 with rfl | hp3
      · exact ⟨by decide, by simp [plainRun], by decide, by decide, by decide, by decide⟩
      · exact absurd hp3 (List.not_mem_nil p))
  exact h

/-- C1 counterexample: a tree allowed by the claim (a NORMAL_TEXT
paragraph with one BOLD run "Title" — non-empty, not whitespace-only,
only bold/italic styling) does not round-trip: the serializer emits
`"**Title**"`, the builder re-inserts it verbatim without stripping the
markers, and the reconstructed paragraph text is `"**Title**"`, not the
original raw text `"Title"`. -/
theorem claim_c1_counterexample :
    rawText ⟨("NORMAL_TEXT"), [⟨("Title").data, true, false, false⟩]⟩ = ("Title").data
    ∧ opsParagraphs (uploadRequests 1 (serializeBody
        [Element.paragraph ("NORMAL_TEXT") [⟨("Title").data, true, false, false⟩]]))
      = [(("NORMAL_TEXT" : String), ("**Title**").data),
         (("NORMAL_TEXT" : String), ([] : List Char))]
    ∧ ("**Title**").data ≠ ("Title").data :=
  ⟨by decide, by decide, by decide⟩
